import Mathlib

/-!
Shallow embedding of the AT89S52 / 8051 four-function calculator firmware.

The repository holds three near-duplicate C sources:
  * `src/calculator.c`      — evaluator `calc_apply` with a pointer error output
  * `src/unnamed/part_000`  — evaluator `calc_apply` with a global `error_flag`
  * `src/README.md`         — evaluator `apply_op` with a `bit *err` output

Operands are Keil C51 `long`, i.e. 32-bit two's-complement signed integers;
arithmetic wraps silently at 32 bits.  We embed machine values as `Int`
normalised into `[-2^31, 2^31)` by `wrap32`.
-/

/-- Normalise an integer into the 32-bit two's-complement range
`[-2^31, 2^31)`, the semantics of Keil C51 `long` arithmetic. -/
def wrap32 (n : Int) : Int :=
  (n + 2 ^ 31) % 2 ^ 32 - 2 ^ 31

/-- An integer is representable as a 32-bit signed `long`. -/
def in32 (n : Int) : Prop :=
  -(2 ^ 31) ≤ n ∧ n < 2 ^ 31

instance (n : Int) : Decidable (in32 n) := by
  unfold in32; infer_instance

/-- The NUL character: `keypad_scan` returns 0 when no key is asserted,
and `op = 0` encodes "no pending operator" in `main`. -/
def nulKey : Char := Char.ofNat 0

/-- Evaluator of `src/calculator.c` (`calc_apply(a, b, op, &err)`).
The C function writes its fault through the pointer `err`: we return the
pair (function result, final value of `*err`).  `*err` is set to 0 on
entry and to 1 only in the `b == 0` division branch. -/
def calc_apply (a b : Int) (op : Char) : Int × Bool :=
  if op = '+' then (wrap32 (a + b), false)
  else if op = '-' then (wrap32 (a - b), false)
  else if op = '*' then (wrap32 (a * b), false)
  else if op = '/' then
    if b = 0 then (0, true)
    else (wrap32 (a.tdiv b), false)
  else (b, false)

/-- Evaluator of `src/unnamed/part_000` (`calc_apply(a, b, op)` writing the
global `error_flag`).  Modelled as a state transformer on the global: the
argument `g` is the value of `error_flag` before the call, the second
component of the result is its value after the call.  The body assigns
`error_flag = 0` first, so `g` is dead. -/
def calcApplyGlobal (a b : Int) (op : Char) (g : Bool) : Int × Bool :=
  let _pre := g
  if op = '+' then (wrap32 (a + b), false)
  else if op = '-' then (wrap32 (a - b), false)
  else if op = '*' then (wrap32 (a * b), false)
  else if op = '/' then
    if b = 0 then (0, true)
    else (wrap32 (a.tdiv b), false)
  else (b, false)

/-- Evaluator of `src/README.md` (`apply_op(a, b, op, bit *err)`),
returning (result, final `*err`). -/
def apply_op (a b : Int) (op : Char) : Int × Bool :=
  if op = '+' then (wrap32 (a + b), false)
  else if op = '-' then (wrap32 (a - b), false)
  else if op = '*' then (wrap32 (a * b), false)
  else if op = '/' then
    if b = 0 then (0, true)
    else (wrap32 (a.tdiv b), false)
  else (b, false)

theorem wrap32_eq_self {n : Int} (h : in32 n) : wrap32 n = n := by
  obtain ⟨h1, h2⟩ := h
  unfold wrap32
  omega

/-!
## The Input Controller state machine (`main` of `src/calculator.c`)

`main` keeps the locals `num1, num2, res` (`long`), `op` (`char`),
`have_op` and `err` (`unsigned char`, used as booleans).  Each iteration
of the `while(1)` loop consumes one key from `keypad_getkey` and runs the
`C` / operator / `=` / digit if-chain; every other key leaves the state
unchanged.  We embed one loop iteration as `step` and a key sequence as
`runKeys`.
-/

/-- The local state of `main` in `src/calculator.c`: operands `num1`,
`num2`, last result `res`, pending operator `op` (NUL when none),
`have_op` and the fault flag `err`. -/
structure CalcState where
  num1 : Int
  num2 : Int
  res : Int
  op : Char
  have_op : Bool
  err : Bool
deriving DecidableEq, Repr

/-- The state `main` establishes at startup: all numeric locals 0,
`op = 0`, `have_op = 0`, `err = 0`. -/
def initState : CalcState :=
  ⟨0, 0, 0, nulKey, false, false⟩

/-- `key` is one of the four operator keys. -/
def isOpKey (key : Char) : Prop :=
  key = '+' ∨ key = '-' ∨ key = '*' ∨ key = '/'

instance (key : Char) : Decidable (isOpKey key) := by
  unfold isOpKey; infer_instance

/-- `key` is a digit key: the C condition `key >= '0' && key <= '9'`. -/
def isDigitKey (key : Char) : Prop :=
  '0' ≤ key ∧ key ≤ '9'

instance (key : Char) : Decidable (isDigitKey key) := by
  unfold isDigitKey; infer_instance

/-- One iteration of the `while(1)` loop of `main` in `src/calculator.c`,
for a given key: the `C` / operator / `=` / digit if-chain, in source
order.  Digit accumulation `num = num*10 + (key - '0')` is 32-bit `long`
arithmetic, hence `wrap32`. -/
def step (s : CalcState) (key : Char) : CalcState :=
  if key = 'C' then
    ⟨0, 0, 0, nulKey, false, false⟩
  else if isOpKey key then
    if ¬s.have_op then { s with op := key, have_op := true } else s
  else if key = '=' then
    if s.have_op then
      let r := calc_apply s.num1 s.num2 s.op
      { s with
        res := r.1
        num1 := if r.2 then 0 else r.1
        num2 := 0
        have_op := false
        op := nulKey
        err := r.2 }
    else s
  else if isDigitKey key then
    if ¬s.have_op then
      { s with num1 := wrap32 (s.num1 * 10 + ((key.toNat : Int) - 48)) }
    else
      { s with num2 := wrap32 (s.num2 * 10 + ((key.toNat : Int) - 48)) }
  else s

/-- Run the `main` loop over a finite key sequence. -/
def runKeys (s : CalcState) (keys : List Char) : CalcState :=
  keys.foldl step s

/-!
## The Keypad Scanner (`keypad_getkey` of `src/calculator.c`)

`keypad_scan()` returns a key character, or 0 when no key is asserted.
We model the sequence of values successive `keypad_scan()` calls would
return as a finite list of readings; each scan consumes one reading.
`keypad_getkey` busy-waits: poll until a nonzero reading `k`, debounce
25 ms, re-poll; if the re-poll still reads `k`, spin until a zero reading
(release) and return `k`, otherwise resume polling.  On a finite trace
the function either returns a key together with the unconsumed suffix of
the trace, or runs off the end of the trace (`none`, the busy-wait would
still be spinning).
-/

/-- The release-wait loop `while(keypad_scan() != 0);`: consume readings
until a zero reading, returning the suffix after it; `none` when the
trace ends before a release is seen. -/
def waitRelease : List Char → Option (List Char)
  | [] => none
  | c :: rest => if c = nulKey then some rest else waitRelease rest

/-- `keypad_getkey` of `src/calculator.c` over a finite trace of
`keypad_scan` readings: returns the confirmed key and the suffix of the
trace left after the release reading. -/
def keypad_getkey : List Char → Option (Char × List Char)
  | [] => none
  | k :: rest =>
    if k = nulKey then keypad_getkey rest
    else
      match rest with
      | [] => none
      | k2 :: rest2 =>
        if k2 = k then (waitRelease rest2).map (fun l => (k, l))
        else keypad_getkey rest2

/-!
## The numeric renderer (`lcd_print_num` of `src/calculator.c`)

`lcd_print_num(long n)` emits characters one at a time through
`lcd_data`; we model it as the list of characters emitted, in order.
The digit loop `while(n > 0 && i < 11)` fills `buf` with the low-order
digit first and runs at most 11 iterations (the size guard on `buf`);
the second loop emits `buf` in reverse, most significant digit first.
The sign branch executes `n = -n` in 32-bit `long` arithmetic, hence
`wrap32`.
-/

/-- The digit-extraction loop of `lcd_print_num`, producing `buf` in
emission order (most significant digit first would be the reverse; this
list is least-significant-first, as stored).  The fuel argument is
`11 - i`, the room left in `buf`.  `tmod`/`tdiv` are C's truncating
`%` and `/`; the loop body only runs for `0 < n`, where they agree with
ordinary Euclidean division. -/
def numLoop : Int → Nat → List Char
  | _, 0 => []
  | n, fuel + 1 =>
    if 0 < n then Char.ofNat ((n.tmod 10).toNat + 48) :: numLoop (n.tdiv 10) fuel
    else []

/-- `lcd_print_num` of `src/calculator.c`: the list of characters passed
to `lcd_data`, in order. -/
def lcd_print_num (n : Int) : List Char :=
  if n = 0 then ['0']
  else if n < 0 then '-' :: (numLoop (wrap32 (-n)) 11).reverse
  else (numLoop n 11).reverse

/-- The character for a decimal digit value. -/
def toDigitChar (d : Nat) : Char := Char.ofNat (d + 48)

/-- The claimed output, following the spec's words: the decimal
representation of `n` — a leading `-` and the digits of `|n|` when `n`
is negative, the digits with no leading zeros when positive, and the
single character `0` when zero.  `Nat.digits 10` is the canonical
little-endian decimal digit expansion, reversed here to print order. -/
def decRender (n : Int) : List Char :=
  if n = 0 then ['0']
  else if n < 0 then '-' :: ((Nat.digits 10 n.natAbs).map toDigitChar).reverse
  else ((Nat.digits 10 n.natAbs).map toDigitChar).reverse

/-!
## Helper lemmas
-/

/-- A digit key is not `C`, not an operator key and not `=`: the earlier
branches of the `main` if-chain do not capture it. -/
theorem isDigitKey_not_special {d : Char} (hd : isDigitKey d) :
    d ≠ 'C' ∧ ¬isOpKey d ∧ d ≠ '=' := by
  refine ⟨?_, ?_, ?_⟩
  · rintro rfl; exact absurd hd (by decide)
  · intro hop
    rcases hop with rfl | rfl | rfl | rfl <;> exact absurd hd (by decide)
  · rintro rfl; exact absurd hd (by decide)

/-!
## Claim theorems: the Evaluator
-/

/-- C1: for every `a`, dividing by 0 returns result 0 with fault true
(the quotient `a / 0` never appears in the result); for `b ≠ 0` the
fault is false and the result is the (32-bit) truncating division of `a`
by `b`, rounded toward zero. -/
theorem div_by_zero_faults (a b : Int) (hb : b ≠ 0) :
    calc_apply a 0 '/' = (0, true) ∧
    calc_apply a b '/' = (wrap32 (a.tdiv b), false) := by
  constructor
  · simp [calc_apply]
  · simp [calc_apply, hb]

theorem div_by_zero_faults_witness :
    calc_apply 7 0 '/' = (0, true) ∧
    calc_apply 7 (-2) '/' = (wrap32 (Int.tdiv 7 (-2)), false) :=
  div_by_zero_faults 7 (-2) (by decide)

/-- C2: for 32-bit operands the evaluator never faults on `+`, `-`, `*`
(nor on `/` with a nonzero divisor), and the result is the exact fixed
width operation: the mathematical value wrapped to 32 bits, with `/`
truncating toward zero. -/
theorem calc_apply_exact (a b : Int) (h32a : in32 a) (h32b : in32 b) :
    calc_apply a b '+' = (wrap32 (a + b), false) ∧
    calc_apply a b '-' = (wrap32 (a - b), false) ∧
    calc_apply a b '*' = (wrap32 (a * b), false) ∧
    (b ≠ 0 → calc_apply a b '/' = (wrap32 (a.tdiv b), false)) := by
  refine ⟨by simp [calc_apply], by simp [calc_apply], by simp [calc_apply],
    fun hb0 => by simp [calc_apply, hb0]⟩

theorem calc_apply_exact_witness :
    calc_apply 5 3 '+' = (wrap32 (5 + 3), false) ∧
    calc_apply 5 3 '-' = (wrap32 (5 - 3), false) ∧
    calc_apply 5 3 '*' = (wrap32 (5 * 3), false) ∧
    ((3 : Int) ≠ 0 → calc_apply 5 3 '/' = (wrap32 (Int.tdiv 5 3), false)) :=
  calc_apply_exact 5 3 (by decide) (by decide)

/-!
## Claim theorems: the Input Controller
-/

/-- C3: with an operator pending, `=` applies the evaluator to
(num1, num2, op), seeds `num1` with the result (0 on fault), zeroes
`num2` and clears the pending operator; hence `5 + 3 = + 2 =` yields 10,
and `5 / 0 =` resets `num1` to 0 so a following `3 + 2 =` yields 5 with
no stale operand leakage. -/
theorem equals_applies_and_chains (s : CalcState) (hs : s.have_op = true) :
    step s '=' =
      { s with
        res := (calc_apply s.num1 s.num2 s.op).1
        num1 := if (calc_apply s.num1 s.num2 s.op).2 then 0
                else (calc_apply s.num1 s.num2 s.op).1
        num2 := 0
        have_op := false
        op := nulKey
        err := (calc_apply s.num1 s.num2 s.op).2 } ∧
    (runKeys initState ['5', '+', '3', '=', '+', '2', '=']).num1 = 10 ∧
    runKeys initState ['5', '/', '0', '='] = ⟨0, 0, 0, nulKey, false, true⟩ ∧
    (runKeys initState ['5', '/', '0', '=', '3', '+', '2', '=']).num1 = 5 := by
  refine ⟨?_, by decide, by decide, by decide⟩
  simp [step, isOpKey, hs]

theorem equals_applies_and_chains_witness :
    step ⟨5, 3, 0, '+', true, false⟩ '=' = ⟨8, 0, 8, nulKey, false, false⟩ ∧
    (runKeys initState ['5', '+', '3', '=', '+', '2', '=']).num1 = 10 ∧
    runKeys initState ['5', '/', '0', '='] = ⟨0, 0, 0, nulKey, false, true⟩ ∧
    (runKeys initState ['5', '/', '0', '=', '3', '+', '2', '=']).num1 = 5 :=
  equals_applies_and_chains ⟨5, 3, 0, '+', true, false⟩ rfl

/-- C4: an operator keypress while an operator is already pending leaves
the state unchanged (first operator wins), so `5 + + 3 =` ends in
exactly the state of `5 + 3 =`. -/
theorem operator_first_wins (s : CalcState) (k : Char) (hs : s.have_op = true)
    (hk : isOpKey k) :
    step s k = s ∧
    runKeys initState ['5', '+', '+', '3', '='] =
      runKeys initState ['5', '+', '3', '='] := by
  refine ⟨?_, by decide⟩
  have hkC : k ≠ 'C' := by rcases hk with rfl | rfl | rfl | rfl <;> decide
  simp [step, hkC, hk, hs]

theorem operator_first_wins_witness :
    step ⟨5, 0, 0, '+', true, false⟩ '*' = ⟨5, 0, 0, '+', true, false⟩ ∧
    runKeys initState ['5', '+', '+', '3', '='] =
      runKeys initState ['5', '+', '3', '='] :=
  operator_first_wins ⟨5, 0, 0, '+', true, false⟩ '*' rfl (by decide)

/-- C7: pressing `C` from any state yields exactly the startup state
(0, 0, no pending operator, no fault), and pressing `C` again from that
state changes nothing. -/
theorem clear_is_reset (s : CalcState) :
    step s 'C' = initState ∧ step initState 'C' = initState :=
  ⟨rfl, rfl⟩

/-- C8: a digit key accumulates into `num1` when no operator is pending
and into `num2` otherwise, in 32-bit arithmetic; the other operand, the
pending operator and the remaining fields are unchanged (the record
updates touch only the targeted operand). -/
theorem digit_targets_operand (s : CalcState) (d : Char) (hd : isDigitKey d) :
    (s.have_op = false →
      step s d = { s with num1 := wrap32 (s.num1 * 10 + ((d.toNat : Int) - 48)) }) ∧
    (s.have_op = true →
      step s d = { s with num2 := wrap32 (s.num2 * 10 + ((d.toNat : Int) - 48)) }) := by
  obtain ⟨h1, h2, h3⟩ := isDigitKey_not_special hd
  constructor
  · intro hs; simp [step, h1, h2, h3, hd, hs]
  · intro hs; simp [step, h1, h2, h3, hd, hs]

theorem digit_targets_operand_witness :
    step ⟨1, 2, 0, nulKey, false, false⟩ '7' = ⟨17, 2, 0, nulKey, false, false⟩ ∧
    step ⟨1, 2, 0, '+', true, false⟩ '7' = ⟨1, 27, 0, '+', true, false⟩ :=
  ⟨(digit_targets_operand ⟨1, 2, 0, nulKey, false, false⟩ '7' (by decide)).1 rfl,
   (digit_targets_operand ⟨1, 2, 0, '+', true, false⟩ '7' (by decide)).2 rfl⟩

/-!
## Claim theorems: purity and variant agreement of the Evaluator
-/

/-- C6 (counterexample): the part_000 evaluator does mutate a global:
with `error_flag` set before the call, evaluating `1 + 2` leaves it
cleared afterwards, so the function changed state outside its return
value. -/
theorem global_flag_mutated :
    (calcApplyGlobal 1 2 '+' true).2 ≠ true := by decide

/-- C6 (amended): the evaluator's result and fault depend only on the
arguments (a, b, op): the part_000 variant's output is independent of
the prior value of the global `error_flag` and agrees with the
pointer-output variants, which modify nothing outside their return
channel. -/
theorem evaluator_output_depends_only_on_args (a b : Int) (op : Char)
    (g g' : Bool) :
    calcApplyGlobal a b op g = calcApplyGlobal a b op g' ∧
    calcApplyGlobal a b op g = calc_apply a b op ∧
    apply_op a b op = calc_apply a b op :=
  ⟨rfl, rfl, rfl⟩

/-- C10: the three evaluator variants — `calc_apply` of calculator.c,
`calc_apply` of part_000 (global flag, any prior flag value) and
`apply_op` of README.md — produce the same result and the same fault
indication on every input. -/
theorem evaluator_variants_agree (a b : Int) (op : Char) (g : Bool) :
    apply_op a b op = calc_apply a b op ∧
    calcApplyGlobal a b op g = calc_apply a b op :=
  ⟨rfl, rfl⟩

/-!
## Claim theorems: the Keypad Scanner
-/

theorem waitRelease_zero (cs : List Char) :
    waitRelease (nulKey :: cs) = some cs := rfl

theorem waitRelease_cons {c : Char} (hc : c ≠ nulKey) (cs : List Char) :
    waitRelease (c :: cs) = waitRelease cs := by
  simp [waitRelease, hc]

theorem keypad_getkey_zero (rest : List Char) :
    keypad_getkey (nulKey :: rest) = keypad_getkey rest := by
  cases rest with
  | nil => simp [keypad_getkey]
  | cons c cs => simp [keypad_getkey]

theorem keypad_getkey_confirm (k : Char) (hk : k ≠ nulKey) (rest2 : List Char) :
    keypad_getkey (k :: k :: rest2) = (waitRelease rest2).map (fun l => (k, l)) := by
  simp [keypad_getkey, hk]

theorem keypad_getkey_discard {k1 k2 : Char} (h1 : k1 ≠ nulKey) (h2 : k2 ≠ k1)
    (t : List Char) :
    keypad_getkey (k1 :: k2 :: t) = keypad_getkey t := by
  simp [keypad_getkey, h1, h2]

/-- A successful `waitRelease` splits the trace at the first zero
reading: everything before it is nonzero, and the suffix after it is
returned. -/
theorem waitRelease_eq_some {l rest : List Char} (h : waitRelease l = some rest) :
    ∃ m, l = m ++ nulKey :: rest ∧ ∀ c ∈ m, c ≠ nulKey := by
  induction l with
  | nil => simp [waitRelease] at h
  | cons c cs ih =>
    by_cases hc : c = nulKey
    · subst hc
      rw [waitRelease_zero] at h
      injection h with h
      exact ⟨[], by simp [h], by simp⟩
    · rw [waitRelease_cons hc] at h
      obtain ⟨m, hm, hall⟩ := ih h
      refine ⟨c :: m, by simp [hm], ?_⟩
      intro x hx
      rcases List.mem_cons.mp hx with rfl | hx
      · exact hc
      · exact hall x hx

/-- `waitRelease` consumes a run of identical nonzero readings up to and
including the release reading. -/
theorem waitRelease_replicate (k : Char) (hk : k ≠ nulKey) :
    ∀ n, waitRelease (List.replicate n k ++ [nulKey]) = some [] := by
  intro n
  induction n with
  | zero => simp [waitRelease]
  | succ n ih => simp [List.replicate_succ, waitRelease, hk, ih]

/-- Soundness of `keypad_getkey` on a length-bounded trace: a returned
key was read, confirmed by the re-poll, and followed by a release. -/
theorem keypad_getkey_sound_aux :
    ∀ (n : Nat) (l : List Char), l.length ≤ n → ∀ (k : Char) (rest : List Char),
      keypad_getkey l = some (k, rest) →
      k ≠ nulKey ∧ ∃ p m, l = p ++ k :: k :: (m ++ nulKey :: rest) ∧
        ∀ c ∈ m, c ≠ nulKey := by
  intro n
  induction n with
  | zero =>
    intro l hl k rest h
    have : l = [] := List.eq_nil_of_length_eq_zero (Nat.le_zero.mp hl)
    subst this
    simp [keypad_getkey] at h
  | succ n ih =>
    intro l hl k rest h
    rcases l with _ | ⟨k1, rest1⟩
    · simp [keypad_getkey] at h
    · by_cases h1 : k1 = nulKey
      · subst h1
        rw [keypad_getkey_zero] at h
        obtain ⟨hk, p, m, hdec, hall⟩ :=
          ih rest1 (by simp only [List.length_cons] at hl; omega) k rest h
        exact ⟨hk, nulKey :: p, m, by simp [hdec], hall⟩
      · rcases rest1 with _ | ⟨k2, rest2⟩
        · simp [keypad_getkey, h1] at h
        · by_cases h2 : k2 = k1
          · subst h2
            rw [keypad_getkey_confirm k2 h1 rest2] at h
            cases hw : waitRelease rest2 with
            | none => rw [hw] at h; simp at h
            | some l2 =>
              rw [hw] at h
              simp only [Option.map_some', Option.some.injEq, Prod.mk.injEq] at h
              obtain ⟨rfl, rfl⟩ := h
              obtain ⟨m, hm, hall⟩ := waitRelease_eq_some hw
              exact ⟨h1, [], m, by simp [hm], hall⟩
          · rw [keypad_getkey_discard h1 h2 rest2] at h
            obtain ⟨hk, p, m, hdec, hall⟩ :=
              ih rest2 (by simp only [List.length_cons] at hl; omega) k rest h
            exact ⟨hk, k1 :: k2 :: p, m, by simp [hdec], hall⟩

/-- C5: `keypad_getkey` returns `k` only after a scan read `k`, the
debounce re-poll read `k` again, and a later scan read 0 (release): a
successful call splits its trace as `p ++ [k, k] ++ m ++ [0] ++ rest`
with every reading in `m` nonzero, where `rest` is handed back unread.
A differing re-poll discards the candidate and resumes polling after it.
A single press-and-release cycle (n+2 equal nonzero readings, then a
zero) yields that key exactly once, with nothing left in the trace, and
an exhausted trace yields no key at all. -/
theorem keypad_getkey_debounce_protocol :
    (∀ (l : List Char) (k : Char) (rest : List Char),
      keypad_getkey l = some (k, rest) →
      k ≠ nulKey ∧ ∃ p m, l = p ++ k :: k :: (m ++ nulKey :: rest) ∧
        ∀ c ∈ m, c ≠ nulKey) ∧
    (∀ (k1 k2 : Char) (t : List Char), k1 ≠ nulKey → k2 ≠ k1 →
      keypad_getkey (k1 :: k2 :: t) = keypad_getkey t) ∧
    (∀ (g : Char) (n : Nat), g ≠ nulKey →
      keypad_getkey (List.replicate (n + 2) g ++ [nulKey]) = some (g, [])) ∧
    keypad_getkey ([] : List Char) = none := by
  refine ⟨fun l k rest h => keypad_getkey_sound_aux l.length l le_rfl k rest h,
    fun k1 k2 t h1 h2 => keypad_getkey_discard h1 h2 t, ?_, rfl⟩
  intro g n hg
  rw [show List.replicate (n + 2) g ++ [nulKey] =
    g :: g :: (List.replicate n g ++ [nulKey]) from by
      simp [List.replicate_succ]]
  rw [keypad_getkey_confirm g hg, waitRelease_replicate g hg n]
  rfl

theorem keypad_getkey_debounce_protocol_witness :
    keypad_getkey (List.replicate (0 + 2) '5' ++ [nulKey]) = some ('5', []) :=
  keypad_getkey_debounce_protocol.2.2.1 '5' 0 (by decide)

/-!
## Claim theorems: the numeric renderer
-/

/-- With enough fuel, the digit loop of `lcd_print_num` extracts exactly
the little-endian decimal digits of a natural number. -/
theorem numLoop_eq_digits :
    ∀ (fuel k : Nat), k < 10 ^ fuel →
      numLoop (k : Int) fuel = (Nat.digits 10 k).map toDigitChar := by
  intro fuel
  induction fuel with
  | zero =>
    intro k hk
    simp only [pow_zero, Nat.lt_one_iff] at hk
    subst hk
    simp [numLoop]
  | succ f ih =>
    intro k hk
    rcases Nat.eq_zero_or_pos k with rfl | hpos
    · simp [numLoop]
    · have h0 : (0 : Int) < (k : Int) := by exact_mod_cast hpos
      rw [show numLoop (k : Int) (f + 1) =
          Char.ofNat (((k : Int).tmod 10).toNat + 48) ::
            numLoop ((k : Int).tdiv 10) f from by simp [numLoop, h0]]
      rw [show ((k : Int).tmod 10).toNat = k % 10 from rfl]
      rw [show (k : Int).tdiv 10 = ((k / 10 : Nat) : Int) from rfl]
      have hdiv : k / 10 < 10 ^ f := by
        rw [pow_succ] at hk
        exact (Nat.div_lt_iff_lt_mul (by norm_num)).mpr hk
      rw [ih (k / 10) hdiv, Nat.digits_def' (by norm_num : (1 : Nat) < 10) hpos]
      simp [toDigitChar]

/-- C9 (amended): for every operand value except the minimum 32-bit
integer, `lcd_print_num` emits exactly the decimal representation: a
leading minus and the digits of the absolute value for negatives, the
digits with no leading zeros for positives, and the single character 0
for zero. -/
theorem lcd_print_num_renders_decimal (n : Int) (hlo : -(2 ^ 31) < n)
    (hhi : n < 2 ^ 31) :
    lcd_print_num n = decRender n := by
  have e31 : (2 : Int) ^ 31 = 2147483648 := by norm_num
  rcases lt_trichotomy n 0 with hneg | rfl | hpos
  · have hne : n ≠ 0 := ne_of_lt hneg
    have habs : ((n.natAbs : Int)) = -n := Int.ofNat_natAbs_of_nonpos (le_of_lt hneg)
    have hlt : n.natAbs < 10 ^ 11 := by
      have h31 : (n.natAbs : Int) < 2 ^ 31 := by rw [habs, e31]; rw [e31] at hlo; omega
      have h31n : n.natAbs < 2 ^ 31 := by exact_mod_cast h31
      calc n.natAbs < 2 ^ 31 := h31n
        _ < 10 ^ 11 := by norm_num
    have hin : in32 (-n) := by
      unfold in32; rw [e31]; rw [e31] at hlo; omega
    simp only [lcd_print_num, decRender, hne, hneg, if_true, if_false,
      ite_true, ite_false]
    rw [wrap32_eq_self hin, ← habs, numLoop_eq_digits 11 n.natAbs hlt]
  · rfl
  · have hne : n ≠ 0 := ne_of_gt hpos
    have hnn : ¬n < 0 := not_lt.mpr (le_of_lt hpos)
    have habs : ((n.natAbs : Int)) = n := Int.natAbs_of_nonneg (le_of_lt hpos)
    have hlt : n.natAbs < 10 ^ 11 := by
      have h31 : (n.natAbs : Int) < 2 ^ 31 := by rw [habs]; exact hhi
      have h31n : n.natAbs < 2 ^ 31 := by exact_mod_cast h31
      calc n.natAbs < 2 ^ 31 := h31n
        _ < 10 ^ 11 := by norm_num
    simp only [lcd_print_num, decRender, hne, hnn, if_true, if_false,
      ite_true, ite_false]
    rw [show numLoop n 11 = numLoop ((n.natAbs : Int)) 11 from by rw [habs],
      numLoop_eq_digits 11 n.natAbs hlt]

theorem lcd_print_num_renders_decimal_witness :
    lcd_print_num (-45) = decRender (-45) :=
  lcd_print_num_renders_decimal (-45) (by decide) (by decide)

/-- C9 (counterexample): at the minimum operand value `-2^31` the
negation `n = -n` inside `lcd_print_num` wraps back to `-2^31`, the
digit loop never runs, and only the minus sign is emitted — not the
decimal representation of `-2^31`. -/
theorem lcd_print_num_intmin :
    lcd_print_num (-(2 ^ 31)) = ['-'] ∧
    lcd_print_num (-(2 ^ 31)) ≠ decRender (-(2 ^ 31)) := by
  have h : lcd_print_num (-(2 ^ 31)) = ['-'] := by decide
  refine ⟨h, ?_⟩
  rw [h]
  intro he
  have hd : Nat.digits 10 ((-(2 ^ 31) : Int)).natAbs ≠ [] := by
    rw [Nat.digits_ne_nil_iff_ne_zero]
    decide
  rw [decRender, if_neg (show ¬((-(2 ^ 31) : Int)) = 0 by decide),
    if_pos (show ((-(2 ^ 31) : Int)) < 0 by decide)] at he
  simp only [List.cons.injEq] at he
  exact hd (List.map_eq_nil_iff.mp (List.reverse_eq_nil_iff.mp he.2.symm))
